import Mathlib

/-!
# tinfoil-bolt — verification of the virtual-path / range-serving core

A shallow embedding, in Lean 4, of the core logic of the tinfoil-bolt HTTP
file server: the alias builder (`src/config.ts`), the virtual path resolver
and URL encoder (`src/lib/paths.ts`), the RFC 7233 range parser
(`src/lib/range.ts`), the shop-data (listing) builder
(`src/services/shop.ts`), the listing cache (`src/lib/cache.ts`) and the
range-handling logic of the files route (`src/routes/files.ts`).

JavaScript strings are modelled as `List Char` (`JSString`); JavaScript
numbers, where they can go negative (`fileSize - suffix`), as `Int`;
filesystem access is abstracted into an explicit oracle argument, so that
statements of the form "the function fails without consulting the
filesystem" are expressed as quantification over every oracle.
-/

/-- JavaScript strings, modelled as lists of characters. -/
abbrev JSString := List Char

/-- Model of `String.prototype.split` with a single-character separator:
`"a-b".split("-") = ["a","b"]`, `"".split("-") = [""]`,
`"-b".split("-") = ["","b"]`. -/
def splitOnChar (sep : Char) : JSString → List JSString
  | [] => [[]]
  | c :: cs =>
    if c = sep then [] :: splitOnChar sep cs
    else
      match splitOnChar sep cs with
      | [] => [[c]]
      | h :: t => (c :: h) :: t

/-- Model of `parseInt(s, 10)` on an all-digit string: fold the decimal digits. -/
def natDigits (s : JSString) : Nat :=
  s.foldl (fun n c => 10 * n + (c.toNat - 48)) 0

/-- Fuel-driven emission of the decimal digits of `n`, most significant
first; `fuel ≥ n` suffices for the fuel never to run out. -/
def natToDigitsCore (fuel : Nat) (n : Nat) : JSString :=
  match fuel with
  | 0 => []
  | fuel + 1 =>
    if n = 0 then []
    else natToDigitsCore fuel (n / 10) ++ [Nat.digitChar (n % 10)]

/-- Decimal rendering of a natural number (JavaScript `String(n)` for a
non-negative integer) as a character list. -/
def natToDigits (n : Nat) : JSString :=
  if n = 0 then ['0'] else natToDigitsCore n n

/-- Decimal rendering of a JavaScript integer (`String(n)`), signed. -/
def intToDigits (n : Int) : JSString :=
  if n < 0 then '-' :: natToDigits n.natAbs else natToDigits n.toNat

/-- The characters `String.prototype.trim` removes (ECMAScript WhiteSpace
and LineTerminator code points). -/
def jsWhitespace (c : Char) : Bool :=
  ['\t', '\n', '\u000B', '\u000C', '\r', ' ', '\u00A0', '\u1680',
   '\u2000', '\u2001', '\u2002', '\u2003', '\u2004', '\u2005', '\u2006',
   '\u2007', '\u2008', '\u2009', '\u200A', '\u2028', '\u2029', '\u202F',
   '\u205F', '\u3000', '\uFEFF'].contains c

/-- Model of `String.prototype.trim`: drop leading and trailing whitespace. -/
def jsTrim (s : JSString) : JSString :=
  ((s.dropWhile jsWhitespace).reverse.dropWhile jsWhitespace).reverse

/-- Model of `Array.prototype.join` with a single-character separator. -/
def joinSep (sep : Char) : List JSString → JSString
  | [] => []
  | [s] => s
  | s :: rest => s ++ sep :: joinSep sep rest

section RangeModel

/-- Model of `RangeRequest` from `src/lib/range.ts` (`{ start, end }`); the `end`
field is spelled `stop` because `end` is a Lean keyword. Both components
are JavaScript numbers (`fileSize - 1` can be `-1`), hence `Int`. -/
structure RangeRequest where
  start : Int
  stop : Int
  deriving DecidableEq, Repr

/-- The body of `parseRange` after the `bytes=` prefix has been consumed:
the anchored regex `^bytes=(\d*)-(\d*)$` is rendered as "exactly one `-`,
digits (possibly none) on both sides", followed by the three-branch
start/end/suffix logic of `src/lib/range.ts` lines 126–159. -/
def parseRangeBody (rest : JSString) (fileSize : Int) : Option RangeRequest :=
  match splitOnChar '-' rest with
  | [startStr, endStr] =>
    if ¬ (startStr.all Char.isDigit ∧ endStr.all Char.isDigit) then none
    else if startStr = [] ∧ endStr = [] then none
    else if startStr ≠ [] ∧ endStr ≠ [] then
      -- Format: bytes=start-end
      let start : Int := natDigits startStr
      let stop : Int := natDigits endStr
      if start > stop ∨ start ≥ fileSize then none
      else some ⟨start, min stop (fileSize - 1)⟩
    else if startStr ≠ [] then
      -- Format: bytes=start-
      let start : Int := natDigits startStr
      if start ≥ fileSize then none
      else some ⟨start, fileSize - 1⟩
    else
      -- Format: bytes=-suffix (last N bytes)
      let suffix : Int := natDigits endStr
      if suffix ≤ 0 then none
      else some ⟨max 0 (fileSize - suffix), fileSize - 1⟩
  | _ => none

/-- Model of `parseRange` from `src/lib/range.ts`: match the `bytes=` prefix of the
anchored regex, then parse the `(\d*)-(\d*)` remainder. -/
def parseRange (rangeHeader : JSString) (fileSize : Int) : Option RangeRequest :=
  match rangeHeader with
  | 'b' :: 'y' :: 't' :: 'e' :: 's' :: '=' :: rest => parseRangeBody rest fileSize
  | _ => none

/-- Model of `isSingleRange` from `src/lib/range.ts`: no comma in the header. -/
def isSingleRange (rangeHeader : JSString) : Bool :=
  ¬ rangeHeader.contains ','

/-- Model of `getContentRangeHeader` from `src/lib/range.ts`:
`` `bytes ${start}-${end}/${total}` ``. -/
def getContentRangeHeader (start stop total : Int) : JSString :=
  "bytes ".toList ++ intToDigits start ++ '-' :: intToDigits stop
    ++ '/' :: intToDigits total

end RangeModel

section PathsModel

/-- Model of `BaseDir` from `src/config.ts`: `{ path, alias }`. -/
structure BaseDir where
  path : JSString
  aliasName : JSString  -- the source field is named `alias` (a Lean keyword)
  deriving DecidableEq, Repr

/-- Hex digit characters used by `encodeURIComponent` percent-escapes,
uppercase (`0`–`9`, `A`–`F`). -/
def hexDigit (n : Nat) : Char :=
  (Nat.digitChar n).toUpper

/-- UTF-8 byte sequence of a single code point, as natural numbers. -/
def utf8Bytes (c : Char) : List Nat :=
  let n := c.toNat
  if n < 0x80 then [n]
  else if n < 0x800 then [0xC0 + n / 64, 0x80 + n % 64]
  else if n < 0x10000 then
    [0xE0 + n / 4096, 0x80 + n / 64 % 64, 0x80 + n % 64]
  else
    [0xF0 + n / 262144, 0x80 + n / 4096 % 64, 0x80 + n / 64 % 64, 0x80 + n % 64]

/-- The characters ECMAScript `encodeURIComponent` leaves unescaped:
`A`–`Z`, `a`–`z`, `0`–`9` and `- _ . ! ~ * ' ( )`. -/
def isUnreservedURIChar (c : Char) : Bool :=
  c.isAlphanum || ['-', '_', '.', '!', '~', '*', '\'', '(', ')'].contains c

/-- Action of `encodeURIComponent` on one character: kept verbatim if unreserved,
otherwise each UTF-8 byte becomes `%XX` (uppercase hex). -/
def encodeComponentChar (c : Char) : JSString :=
  if isUnreservedURIChar c then [c]
  else (utf8Bytes c).flatMap fun b => ['%', hexDigit (b / 16), hexDigit (b % 16)]

/-- Model of ECMAScript `encodeURIComponent`. -/
def encodeURIComponent (s : JSString) : JSString :=
  s.flatMap encodeComponentChar

/-- Model of `encodePath` from `src/lib/paths.ts`: split on `/`, drop empty
segments (`filter(Boolean)`), `encodeURIComponent` each segment, rejoin
with `/`. -/
def encodePath (path : JSString) : JSString :=
  joinSep '/' (((splitOnChar '/' path).filter (· ≠ [])).map encodeURIComponent)

/-- Model of `hasPathTraversal` from `src/lib/paths.ts`: some segment is `..`, `.`
or trims to the empty string. -/
def hasPathTraversal (parts : List JSString) : Bool :=
  parts.any fun p =>
    p == ['.', '.'] || p == ['.'] || (jsTrim p).length == 0

/-- Model of `resolveVirtualPath` from `src/lib/paths.ts`. The configured
directories (`BASES`) and the filesystem existence check
(`Bun.file(...).exists()`) are explicit parameters; the function returns
the absolute path on success (`{ file, absPath }` with the file handle
dropped), `none` on any failure. -/
def resolveVirtualPath (virtualPath : JSString) (bases : List BaseDir)
    (fsExists : JSString → Bool) : Option JSString :=
  let parts := (splitOnChar '/' virtualPath).filter (· ≠ [])
  match parts with
  | [] => none
  | aliasSeg :: rest =>
    if hasPathTraversal (aliasSeg :: rest) then none
    else
      match bases.find? (fun b => b.aliasName == aliasSeg) with
      | none => none
      | some base =>
        let absPath := base.path ++ '/' :: joinSep '/' rest
        if fsExists absPath then some absPath else none

end PathsModel

section ConfigModel

/-- The basename step of `buildBaseAliases`:
`dir.split("/").filter(Boolean).pop() || "games"`. -/
def basenameOf (dir : JSString) : JSString :=
  ((splitOnChar '/' dir).filter (· ≠ [])).getLastD "games".toList

/-- One `nameCounts.get(...) ?? 0` lookup on the association list that
models the `Map<string, number>`. -/
def lookupCount (counts : List (JSString × Nat)) (b : JSString) : Nat :=
  match counts.find? (fun e => e.1 == b) with
  | some e => e.2
  | none => 0

/-- Model of `nameCounts.set(baseName, count + 1)` on the association-list model. -/
def setCount (counts : List (JSString × Nat)) (b : JSString) (n : Nat) :
    List (JSString × Nat) :=
  if counts.any (fun e => e.1 == b) then
    counts.map fun e => if e.1 == b then (e.1, n) else e
  else counts ++ [(b, n)]

/-- The `dirs.map` body of `buildBaseAliases`, with the mutable
`nameCounts` map threaded explicitly. -/
def buildBaseAliasesAux (counts : List (JSString × Nat)) :
    List JSString → List BaseDir
  | [] => []
  | dir :: rest =>
    let baseName := basenameOf dir
    let count := lookupCount counts baseName
    let aliasName :=
      if count = 0 then baseName
      else baseName ++ '-' :: natToDigits (count + 1)
    ⟨dir, aliasName⟩ :: buildBaseAliasesAux (setCount counts baseName (count + 1)) rest

/-- Model of `buildBaseAliases` from `src/config.ts`. -/
def buildBaseAliases (dirs : List JSString) : List BaseDir :=
  buildBaseAliasesAux [] dirs

end ConfigModel

section ShopModel

/-- One `{ url, size }` element of `ShopData.files`. -/
structure ShopFileEntry where
  url : JSString
  size : Int
  deriving DecidableEq, Repr

/-- Model of `ShopData` from `src/services/shop.ts`. -/
structure ShopData where
  files : List ShopFileEntry
  directories : List JSString
  success : Option JSString
  deriving DecidableEq, Repr

/-- Model of `file.slice(0, file.lastIndexOf("/"))`: everything before the last
`/` of a string that contains one. -/
def dirnameOf (f : JSString) : JSString :=
  ((f.reverse.dropWhile (· ≠ '/')).drop 1).reverse

/-- Insertion into the `directories` `Set` (JavaScript sets preserve
insertion order and ignore re-insertions). -/
def addDir (ds : List JSString) (d : JSString) : List JSString :=
  if d ∈ ds then ds else ds ++ [d]

/-- The per-file `directories.add` logic of `buildShopData`. -/
def addDirsOfFile (aliasName : JSString) (ds : List JSString) (f : JSString) :
    List JSString :=
  let dirName := if f.contains '/' then dirnameOf f else []
  if dirName.length > 0 then addDir ds (aliasName ++ '/' :: dirName)
  else addDir ds aliasName

/-- Model of `buildShopData` from `src/services/shop.ts`, with the glob scan
abstracted: `scans` pairs each configured `BaseDir` with the relative
paths its `Bun.Glob` scan yields, and `sizeOf` stands for
`Bun.file(absPath).size`. `fileEntries` collects
`{virtualPath, absPath}` per matched file; the result maps them to
`{ url: "../files/" + encodePath(virtualPath), size }` and the
deduplicated directory set to `"../files/" + encodePath(d)`. -/
def buildShopData (scans : List (BaseDir × List JSString))
    (sizeOf : JSString → Int) (successMessage : Option JSString) : ShopData :=
  let fileEntries : List (JSString × JSString) :=
    scans.flatMap fun bf =>
      bf.2.map fun f => (bf.1.aliasName ++ '/' :: f, bf.1.path ++ '/' :: f)
  let directories : List JSString :=
    scans.foldl (fun ds bf => bf.2.foldl (addDirsOfFile bf.1.aliasName) ds) []
  { files := fileEntries.map fun e =>
      ⟨"../files/".toList ++ encodePath e.1, sizeOf e.2⟩,
    directories := directories.map fun d => "../files/".toList ++ encodePath d,
    success := successMessage }

end ShopModel

section CacheModel

/-- Model of `ShopDataCache` from `src/lib/cache.ts`: the `ttlMs`, `data` and
`timestamp` fields; `null` becomes `none`.  Timestamps are milliseconds
(`Date.now()`), as `Int`. -/
structure ShopDataCache where
  ttlMs : Int
  data : Option ShopData
  timestamp : Int
  deriving DecidableEq, Repr

namespace ShopDataCache

/-- Model of `new ShopDataCache(ttlSeconds)`. -/
def create (ttlSeconds : Int) : ShopDataCache :=
  { ttlMs := ttlSeconds * 1000, data := none, timestamp := 0 }

/-- Model of `set(data)`; the implicit `Date.now()` is the explicit `now`. -/
def set (c : ShopDataCache) (d : ShopData) (now : Int) : ShopDataCache :=
  { c with data := some d, timestamp := now }

/-- Model of `get()`; returns the cache state after the call (expiry drops the
entry) and the returned value. -/
def get (c : ShopDataCache) (now : Int) : ShopDataCache × Option ShopData :=
  match c.data with
  | none => (c, none)
  | some d =>
    if now - c.timestamp > c.ttlMs then
      ({ c with data := none, timestamp := 0 }, none)
    else (c, some d)

end ShopDataCache

end CacheModel

section FilesRouteModel

/-- The observable outcome of the range-handling part of `filesHandler`
(`src/routes/files.ts`): the 416 responses keep their body text (which
distinguishes the multi-range rejection from the parse rejection) and
their `Content-Range` header; 206 keeps the byte interval, the
`Content-Length` and the `Content-Range`. -/
inductive FileRangeResponse where
  | fullFile
  | rangeNotSatisfiable (body : JSString) (contentRange : JSString)
  | partialContent (start stop contentLength : Int) (contentRange : JSString)
  deriving DecidableEq, Repr

/-- The range-handling logic of `filesHandler` for an already-resolved
file of size `fileSize` (`src/routes/files.ts` lines 25–78). -/
def filesRangeLogic (rangeHeader : Option JSString) (fileSize : Int) :
    FileRangeResponse :=
  match rangeHeader with
  | none => .fullFile
  | some h =>
    if ¬ isSingleRange h then
      .rangeNotSatisfiable "Multiple ranges not supported".toList
        ("bytes */".toList ++ intToDigits fileSize)
    else
      match parseRange h fileSize with
      | none =>
        .rangeNotSatisfiable "Range request invalid".toList
          ("bytes */".toList ++ intToDigits fileSize)
      | some range =>
        .partialContent range.start range.stop (range.stop - range.start + 1)
          (getContentRangeHeader range.start range.stop fileSize)

end FilesRouteModel

section DecimalLemmas

theorem natToDigitsCore_eq (fuel n : Nat) (h : n ≤ fuel) :
    natToDigitsCore fuel n = (Nat.digits 10 n).reverse.map Nat.digitChar := by
  induction fuel generalizing n with
  | zero =>
    interval_cases n
    simp [natToDigitsCore]
  | succ fuel ih =>
    by_cases hn : n = 0
    · subst hn; simp [natToDigitsCore]
    · have hdiv : n / 10 < n := Nat.div_lt_self (Nat.pos_of_ne_zero hn) (by norm_num)
      rw [natToDigitsCore, if_neg hn, ih (n / 10) (by omega),
        Nat.digits_def' (by norm_num : 1 < 10) (Nat.pos_of_ne_zero hn)]
      simp

theorem natToDigits_eq (n : Nat) :
    natToDigits n =
      if n = 0 then ['0'] else (Nat.digits 10 n).reverse.map Nat.digitChar := by
  unfold natToDigits
  by_cases hn : n = 0
  · simp [hn]
  · simp [hn, natToDigitsCore_eq n n le_rfl]

theorem digitChar_isDigit (d : Nat) (h : d < 10) :
    (Nat.digitChar d).isDigit = true := by
  interval_cases d <;> decide

theorem digitChar_toNat (d : Nat) (h : d < 10) :
    (Nat.digitChar d).toNat = 48 + d := by
  interval_cases d <;> decide

theorem mem_natToDigits_isDigit (n : Nat) (c : Char) (hc : c ∈ natToDigits n) :
    c.isDigit = true := by
  rw [natToDigits_eq] at hc
  by_cases hn : n = 0
  · rw [if_pos hn] at hc
    simp only [List.mem_singleton] at hc
    subst hc; decide
  · rw [if_neg hn] at hc
    simp only [List.mem_map, List.mem_reverse] at hc
    obtain ⟨d, hd, rfl⟩ := hc
    exact digitChar_isDigit d (Nat.digits_lt_base (by norm_num) hd)

theorem natToDigits_ne_nil (n : Nat) : natToDigits n ≠ [] := by
  rw [natToDigits_eq]
  by_cases hn : n = 0
  · simp [hn]
  · simp [hn, Nat.digits_ne_nil_iff_ne_zero]

theorem natDigits_append_singleton (s : JSString) (c : Char) :
    natDigits (s ++ [c]) = 10 * natDigits s + (c.toNat - 48) := by
  simp [natDigits, List.foldl_append]

theorem natDigits_revMap (L : List Nat) (hL : ∀ d ∈ L, d < 10) :
    natDigits (L.reverse.map Nat.digitChar) = Nat.ofDigits 10 L := by
  induction L with
  | nil => simp [natDigits, Nat.ofDigits]
  | cons d L ih =>
    simp only [List.reverse_cons, List.map_append, List.map_cons, List.map_nil]
    rw [natDigits_append_singleton,
      ih (fun x hx => hL x (List.mem_cons_of_mem _ hx)),
      digitChar_toNat d (hL d (List.mem_cons_self d L)), Nat.ofDigits_cons]
    omega

theorem natDigits_natToDigits (n : Nat) : natDigits (natToDigits n) = n := by
  rw [natToDigits_eq]
  by_cases hn : n = 0
  · simp [hn]; decide
  · rw [if_neg hn,
      natDigits_revMap _ (fun d hd => Nat.digits_lt_base (by norm_num) hd),
      Nat.ofDigits_digits]

theorem not_dash_mem_natToDigits (n : Nat) : '-' ∉ natToDigits n := by
  intro h
  have := mem_natToDigits_isDigit n '-' h
  simp at this

theorem intToDigits_ofNat (n : Nat) : intToDigits (n : Int) = natToDigits n := by
  unfold intToDigits
  rw [if_neg (by omega)]
  norm_num

end DecimalLemmas

section SplitJoinLemmas

theorem splitOnChar_of_not_mem (sep : Char) (s : JSString) (h : sep ∉ s) :
    splitOnChar sep s = [s] := by
  induction s with
  | nil => rfl
  | cons c cs ih =>
    have hc : ¬ c = sep := fun hc => h (hc ▸ List.mem_cons_self c cs)
    simp only [splitOnChar, if_neg hc,
      ih (fun hm => h (List.mem_cons_of_mem c hm))]

theorem splitOnChar_append_sep (sep : Char) (s₁ s₂ : JSString) (h : sep ∉ s₁) :
    splitOnChar sep (s₁ ++ sep :: s₂) = s₁ :: splitOnChar sep s₂ := by
  induction s₁ with
  | nil => simp [splitOnChar]
  | cons c cs ih =>
    have hc : ¬ c = sep := fun hc => h (hc ▸ List.mem_cons_self c cs)
    rw [List.cons_append, splitOnChar, if_neg hc,
      ih (fun hm => h (List.mem_cons_of_mem c hm))]

theorem splitOnChar_joinSep (sep : Char) (segs : List JSString)
    (hne : segs ≠ []) (h : ∀ s ∈ segs, sep ∉ s) :
    splitOnChar sep (joinSep sep segs) = segs := by
  induction segs with
  | nil => exact absurd rfl hne
  | cons s rest ih =>
    cases rest with
    | nil => exact splitOnChar_of_not_mem sep s (h s (List.mem_cons_self s []))
    | cons t rest' =>
      have h1 : sep ∉ s := h s (List.mem_cons_self s _)
      have h2 : ∀ x ∈ t :: rest', sep ∉ x :=
        fun x hx => h x (List.mem_cons_of_mem s hx)
      have h3 : t :: rest' ≠ [] := List.cons_ne_nil t rest'
      rw [joinSep, splitOnChar_append_sep sep s _ h1, ih h3 h2]
      exact h3

end SplitJoinLemmas

section TrimLemmas

theorem jsTrim_eq_nil_iff (p : JSString) :
    jsTrim p = [] ↔ ∀ c ∈ p, jsWhitespace c = true := by
  unfold jsTrim
  rw [List.reverse_eq_nil_iff, List.dropWhile_eq_nil_iff]
  constructor
  · intro h c hc
    rw [← List.takeWhile_append_dropWhile (p := jsWhitespace) (l := p)] at hc
    rcases List.mem_append.mp hc with h1 | h2
    · exact List.mem_takeWhile_imp h1
    · exact h c (List.mem_reverse.mpr h2)
  · intro h c hc
    exact h c ((List.dropWhile_sublist jsWhitespace).subset
      (List.mem_reverse.mp hc))

end TrimLemmas

section ResolverLemmas

theorem hasPathTraversal_of_bad (parts : List JSString) (p : JSString)
    (hp : p ∈ parts)
    (hbad : p = ['.'] ∨ p = ['.', '.'] ∨ ∀ c ∈ p, jsWhitespace c = true) :
    hasPathTraversal parts = true := by
  unfold hasPathTraversal
  rw [List.any_eq_true]
  refine ⟨p, hp, ?_⟩
  rcases hbad with h | h | h
  · subst h; decide
  · subst h; decide
  · have : jsTrim p = [] := (jsTrim_eq_nil_iff p).mpr h
    simp [this]

theorem resolveVirtualPath_eq (vp : JSString) (bases : List BaseDir)
    (fsExists : JSString → Bool) :
    resolveVirtualPath vp bases fsExists =
      match (splitOnChar '/' vp).filter (· ≠ []) with
      | [] => none
      | aliasSeg :: rest =>
        if hasPathTraversal (aliasSeg :: rest) then none
        else
          match bases.find? (fun b => b.aliasName == aliasSeg) with
          | none => none
          | some base =>
            if fsExists (base.path ++ '/' :: joinSep '/' rest) then
              some (base.path ++ '/' :: joinSep '/' rest)
            else none := rfl

theorem resolveVirtualPath_none_of_guard (vp : JSString) (bases : List BaseDir)
    (fsExists : JSString → Bool)
    (h : (splitOnChar '/' vp).filter (· ≠ []) = [] ∨
      hasPathTraversal ((splitOnChar '/' vp).filter (· ≠ [])) = true) :
    resolveVirtualPath vp bases fsExists = none := by
  rw [resolveVirtualPath_eq]
  rcases h with h | h
  · rw [h]
  · rcases hp : (splitOnChar '/' vp).filter (· ≠ []) with _ | ⟨a, r⟩
    · rw [hp]
    · rw [hp] at h
      rw [hp]
      simp [h]

end ResolverLemmas

/-- C1: any virtual path whose `/`-split, empty-segment-filtered
segment list is empty, or contains a segment equal to `.`, `..`, or made
only of whitespace, makes `resolveVirtualPath` fail (return `none`)
whatever the configured directories and whatever the filesystem says (the
quantification over `fsExists` expresses that the filesystem is not
consulted); in particular `games/../../etc/passwd` and `games/..` fail for
every configuration. -/
theorem resolveVirtualPath_traversal_guard (vp : JSString)
    (bases : List BaseDir) (fsExists : JSString → Bool)
    (h : (splitOnChar '/' vp).filter (· ≠ []) = [] ∨
      ∃ p ∈ (splitOnChar '/' vp).filter (· ≠ []),
        p = ['.'] ∨ p = ['.', '.'] ∨ ∀ c ∈ p, jsWhitespace c = true) :
    resolveVirtualPath vp bases fsExists = none ∧
    resolveVirtualPath "games/../../etc/passwd".toList bases fsExists = none ∧
    resolveVirtualPath "games/..".toList bases fsExists = none := by
  refine ⟨?_, ?_, ?_⟩
  · apply resolveVirtualPath_none_of_guard
    rcases h with h | ⟨p, hp, hbad⟩
    · exact Or.inl h
    · exact Or.inr (hasPathTraversal_of_bad _ p hp hbad)
  · apply resolveVirtualPath_none_of_guard
    exact Or.inr (hasPathTraversal_of_bad _ ['.', '.'] (by decide)
      (Or.inr (Or.inl rfl)))
  · apply resolveVirtualPath_none_of_guard
    exact Or.inr (hasPathTraversal_of_bad _ ['.', '.'] (by decide)
      (Or.inr (Or.inl rfl)))

/-- Witness for C1 at a concrete input: `games/../../etc/passwd` against a
non-empty configuration and an all-yes filesystem. -/
theorem resolveVirtualPath_traversal_guard_witness :
    (∃ p ∈ (splitOnChar '/' "games/../../etc/passwd".toList).filter (· ≠ []),
      p = ['.'] ∨ p = ['.', '.'] ∨ ∀ c ∈ p, jsWhitespace c = true) ∧
    resolveVirtualPath "games/../../etc/passwd".toList
      [⟨"/data/games".toList, "games".toList⟩] (fun _ => true) = none :=
  ⟨⟨['.', '.'], by decide, Or.inr (Or.inl rfl)⟩,
    (resolveVirtualPath_traversal_guard "games/../../etc/passwd".toList
      [⟨"/data/games".toList, "games".toList⟩] (fun _ => true)
      (Or.inr ⟨['.', '.'], by decide, Or.inr (Or.inl rfl)⟩)).1⟩

/-- C10: a successful resolution always returns the matched configured
directory's path, a `/`, and the remaining segments rejoined with `/`,
every remaining segment being non-empty, not `.`, not `..`, and not
whitespace-only. -/
theorem resolveVirtualPath_confined (vp : JSString) (bases : List BaseDir)
    (fsExists : JSString → Bool) (absPath : JSString)
    (h : resolveVirtualPath vp bases fsExists = some absPath) :
    ∃ b ∈ bases, ∃ rest,
      (splitOnChar '/' vp).filter (· ≠ []) = b.aliasName :: rest ∧
      absPath = b.path ++ '/' :: joinSep '/' rest ∧
      ∀ p ∈ rest, p ≠ [] ∧ p ≠ ['.'] ∧ p ≠ ['.', '.'] ∧
        ¬ ∀ c ∈ p, jsWhitespace c = true := by
  rw [resolveVirtualPath_eq] at h
  split at h
  · exact absurd h (by simp)
  · rename_i a r hp
    by_cases htr : hasPathTraversal (a :: r) = true
    · simp [htr] at h
    · rw [if_neg (by simpa using htr)] at h
      split at h
      · exact absurd h (by simp)
      · rename_i b hfind
        split at h
        · rename_i hex
          have habs : absPath = b.path ++ '/' :: joinSep '/' r :=
            (Option.some.inj h).symm
          have hmem : b ∈ bases := List.mem_of_find?_eq_some hfind
          have halias : b.aliasName = a := by
            have := List.find?_some hfind
            exact eq_of_beq this
          refine ⟨b, hmem, r, ?_, habs, ?_⟩
          · rw [hp, halias]
          · intro p hpr
            have hpmem : p ∈ (splitOnChar '/' vp).filter (· ≠ []) := by
              rw [hp]; exact List.mem_cons_of_mem a hpr
            have hpne : p ≠ [] := by
              have := List.of_mem_filter hpmem
              simpa using this
            have hfalse : hasPathTraversal (a :: r) = false := by
              simpa using htr
            unfold hasPathTraversal at hfalse
            have hnb := List.any_eq_false.mp hfalse p
              (List.mem_cons_of_mem a hpr)
            have hnb2 : ¬ (p = ['.', '.'] ∨ p = ['.'] ∨ (jsTrim p).length = 0) := by
              intro hor
              apply hnb
              rcases hor with h1 | h1 | h1 <;> simp [h1]
            push_neg at hnb2
            obtain ⟨hdd, hd, htrim⟩ := hnb2
            refine ⟨hpne, hd, hdd, ?_⟩
            intro hall
            exact htrim (by rw [(jsTrim_eq_nil_iff p).mpr hall]; rfl)
        · exact absurd h (by simp)

/-- Witness for C10: a concrete successful resolution. -/
theorem resolveVirtualPath_confined_witness :
    resolveVirtualPath "games/sub/foo.nsp".toList
      [⟨"/data/games".toList, "games".toList⟩] (fun _ => true)
      = some "/data/games/sub/foo.nsp".toList ∧
    ∃ b ∈ [(⟨"/data/games".toList, "games".toList⟩ : BaseDir)], ∃ rest,
      (splitOnChar '/' "games/sub/foo.nsp".toList).filter (· ≠ [])
        = b.aliasName :: rest ∧
      "/data/games/sub/foo.nsp".toList = b.path ++ '/' :: joinSep '/' rest ∧
      ∀ p ∈ rest, p ≠ [] ∧ p ≠ ['.'] ∧ p ≠ ['.', '.'] ∧
        ¬ ∀ c ∈ p, jsWhitespace c = true :=
  ⟨by decide,
    resolveVirtualPath_confined "games/sub/foo.nsp".toList
      [⟨"/data/games".toList, "games".toList⟩] (fun _ => true)
      "/data/games/sub/foo.nsp".toList (by decide)⟩

section RangeLemmas

theorem not_dash_of_all_digits (s : JSString) (h : s.all Char.isDigit = true) :
    '-' ∉ s := by
  intro hm
  have := List.all_eq_true.mp h '-' hm
  simp at this

theorem parseRange_bytesEq (rest : JSString) (S : Int) :
    parseRange ("bytes=".toList ++ rest) S = parseRangeBody rest S := rfl

theorem parseRangeBody_of_both (s1 s2 : JSString) (S : Int)
    (h1 : s1.all Char.isDigit = true) (h2 : s2.all Char.isDigit = true)
    (hne1 : s1 ≠ []) (hne2 : s2 ≠ []) :
    parseRangeBody (s1 ++ '-' :: s2) S =
      if (natDigits s1 : Int) > natDigits s2 ∨ (natDigits s1 : Int) ≥ S then
        none
      else some ⟨natDigits s1, min (natDigits s2) (S - 1)⟩ := by
  simp only [parseRangeBody,
    splitOnChar_append_sep '-' s1 s2 (not_dash_of_all_digits s1 h1),
    splitOnChar_of_not_mem '-' s2 (not_dash_of_all_digits s2 h2),
    h1, h2, hne1, hne2]
  simp [hne1, hne2]

theorem parseRangeBody_of_startOnly (s1 : JSString) (S : Int)
    (h1 : s1.all Char.isDigit = true) (hne1 : s1 ≠ []) :
    parseRangeBody (s1 ++ ['-']) S =
      if (natDigits s1 : Int) ≥ S then none
      else some ⟨natDigits s1, S - 1⟩ := by
  have harr : s1 ++ ['-'] = s1 ++ '-' :: ([] : JSString) := rfl
  simp only [parseRangeBody, harr,
    splitOnChar_append_sep '-' s1 [] (not_dash_of_all_digits s1 h1),
    splitOnChar_of_not_mem '-' [] (by simp), h1, hne1]
  simp [hne1]

theorem parseRangeBody_of_suffix (s2 : JSString) (S : Int)
    (h2 : s2.all Char.isDigit = true) (hne2 : s2 ≠ []) :
    parseRangeBody ('-' :: s2) S =
      if (natDigits s2 : Int) ≤ 0 then none
      else some ⟨max 0 (S - natDigits s2), S - 1⟩ := by
  have hsplit : splitOnChar '-' ('-' :: s2) = [] :: splitOnChar '-' s2 := by
    rw [splitOnChar, if_pos rfl]
  simp only [parseRangeBody, hsplit,
    splitOnChar_of_not_mem '-' s2 (not_dash_of_all_digits s2 h2), h2, hne2]
  simp [hne2]

theorem natToDigits_all_digits (n : Nat) :
    (natToDigits n).all Char.isDigit = true :=
  List.all_eq_true.mpr fun c hc => mem_natToDigits_isDigit n c hc

end RangeLemmas

/-- C5: for any file size `S` and `0 ≤ a ≤ b < S`, parsing
`bytes=a-b` against `S` yields `{start: a, end: b}`, and
`getContentRangeHeader a b S` is the string `bytes a-b/S`. -/
theorem parseRange_roundTrip (S a b : Nat) (hab : a ≤ b) (hbS : b < S) :
    parseRange ("bytes=".toList ++ (natToDigits a ++ '-' :: natToDigits b))
        (S : Int) = some ⟨(a : Int), (b : Int)⟩ ∧
    getContentRangeHeader (a : Int) (b : Int) (S : Int) =
      "bytes ".toList ++ natToDigits a ++ '-' :: natToDigits b
        ++ '/' :: natToDigits S := by
  constructor
  · rw [parseRange_bytesEq,
      parseRangeBody_of_both _ _ _ (natToDigits_all_digits a)
        (natToDigits_all_digits b) (natToDigits_ne_nil a) (natToDigits_ne_nil b),
      natDigits_natToDigits, natDigits_natToDigits]
    rw [if_neg (by omega)]
    rw [min_eq_left (by omega)]
  · unfold getContentRangeHeader
    rw [intToDigits_ofNat, intToDigits_ofNat, intToDigits_ofNat]

/-- Witness for C5 at `a = 2`, `b = 5`, `S = 10`. -/
theorem parseRange_roundTrip_witness :
    2 ≤ 5 ∧ 5 < 10 ∧
    (parseRange ("bytes=".toList ++ (natToDigits 2 ++ '-' :: natToDigits 5))
        ((10 : Nat) : Int) = some ⟨(2 : Nat), (5 : Nat)⟩ ∧
      getContentRangeHeader ((2 : Nat) : Int) ((5 : Nat) : Int)
          ((10 : Nat) : Int) =
        "bytes ".toList ++ natToDigits 2 ++ '-' :: natToDigits 5
          ++ '/' :: natToDigits 10) :=
  ⟨by omega, by omega, parseRange_roundTrip 10 2 5 (by omega) (by omega)⟩

/-- C7: the suffix form `bytes=-N`: for `0 < N` and `N ≥ S` the result
is `{start: 0, end: S-1}`; for `0 < N < S` it is `{start: S-N, end: S-1}`;
for `N = 0` it is unsatisfiable (`none`). -/
theorem parseRange_suffixForm (N S : Nat) :
    (0 < N → S ≤ N →
      parseRange ("bytes=".toList ++ '-' :: natToDigits N) (S : Int)
        = some ⟨0, (S : Int) - 1⟩) ∧
    (0 < N → N < S →
      parseRange ("bytes=".toList ++ '-' :: natToDigits N) (S : Int)
        = some ⟨(S : Int) - (N : Int), (S : Int) - 1⟩) ∧
    (N = 0 →
      parseRange ("bytes=".toList ++ '-' :: natToDigits N) (S : Int)
        = none) := by
  have hbase :
      parseRange ("bytes=".toList ++ '-' :: natToDigits N) (S : Int) =
        if ((N : Nat) : Int) ≤ 0 then none
        else some ⟨max 0 ((S : Int) - (N : Nat)), (S : Int) - 1⟩ := by
    rw [parseRange_bytesEq,
      parseRangeBody_of_suffix _ _ (natToDigits_all_digits N)
        (natToDigits_ne_nil N), natDigits_natToDigits]
  refine ⟨?_, ?_, ?_⟩
  · intro hN hSN
    rw [hbase, if_neg (by omega),
      max_eq_left (by omega)]
  · intro hN hNS
    rw [hbase, if_neg (by omega),
      max_eq_right (by omega)]
  · intro hN
    rw [hbase, if_pos (by omega)]

/-- Witness for C7: `bytes=-5` against sizes 3 (clamped), and the other
two cases at sizes 9 and `N = 0`. -/
theorem parseRange_suffixForm_witness :
    (0 < 5 ∧ 3 ≤ 5 ∧
      parseRange ("bytes=".toList ++ '-' :: natToDigits 5) ((3 : Nat) : Int)
        = some ⟨0, ((3 : Nat) : Int) - 1⟩) ∧
    (0 < 5 ∧ 5 < 9 ∧
      parseRange ("bytes=".toList ++ '-' :: natToDigits 5) ((9 : Nat) : Int)
        = some ⟨((9 : Nat) : Int) - (5 : Nat), ((9 : Nat) : Int) - 1⟩) ∧
    ((0 : Nat) = 0 ∧
      parseRange ("bytes=".toList ++ '-' :: natToDigits 0) ((3 : Nat) : Int)
        = none) :=
  ⟨⟨by omega, by omega, (parseRange_suffixForm 5 3).1 (by omega) (by omega)⟩,
    ⟨by omega, by omega,
      (parseRange_suffixForm 5 9).2.1 (by omega) (by omega)⟩,
    ⟨rfl, (parseRange_suffixForm 0 3).2.2 rfl⟩⟩

/-- C9 (implicit): whenever `parseRange` returns a range against a
file size `S ≥ 1`, the range satisfies `0 ≤ start ≤ end ≤ S - 1`, so a 206
response's span lies inside the file and its `Content-Length` is at least
one byte. -/
theorem parseRange_inBounds (hdr : JSString) (S : Int) (r : RangeRequest)
    (hS : 1 ≤ S) (hp : parseRange hdr S = some r) :
    0 ≤ r.start ∧ r.start ≤ r.stop ∧ r.stop ≤ S - 1 := by
  unfold parseRange at hp
  split at hp
  · unfold parseRangeBody at hp
    split at hp
    · dsimp only at hp
      split_ifs at hp with h1 h2 h3 h4 h5 h6 h7
      all_goals obtain rfl := (Option.some.inj hp).symm
      all_goals dsimp only
      all_goals omega
    · exact absurd hp (by simp)
  · exact absurd hp (by simp)

/-- Witness for C9 at `bytes=2-5` against `S = 10`. -/
theorem parseRange_inBounds_witness :
    ((1 : Int) ≤ 10 ∧ parseRange "bytes=2-5".toList 10 = some ⟨2, 5⟩) ∧
    (0 ≤ (⟨2, 5⟩ : RangeRequest).start ∧
      (⟨2, 5⟩ : RangeRequest).start ≤ (⟨2, 5⟩ : RangeRequest).stop ∧
      (⟨2, 5⟩ : RangeRequest).stop ≤ 10 - 1) :=
  ⟨⟨by decide, by decide⟩,
    parseRange_inBounds "bytes=2-5".toList 10 ⟨2, 5⟩ (by decide) (by decide)⟩

/-- C8: any `Range` header containing a comma is classified as
multi-range by `isSingleRange` and rejected by the files handler with the
multi-range 416 response (body `Multiple ranges not supported`,
`Content-Range: bytes */<size>`) before `parseRange` is consulted,
whatever the header's sub-ranges. -/
theorem multiRange_rejected (hdr : JSString) (S : Int) (hc : ',' ∈ hdr) :
    isSingleRange hdr = false ∧
    filesRangeLogic (some hdr) S =
      FileRangeResponse.rangeNotSatisfiable
        "Multiple ranges not supported".toList
        ("bytes */".toList ++ intToDigits S) := by
  have hcont : hdr.contains ',' = true := List.elem_eq_true_of_mem hc
  have hsr : isSingleRange hdr = false := by
    unfold isSingleRange
    rw [hcont]
    decide
  refine ⟨hsr, ?_⟩
  unfold filesRangeLogic
  simp [hsr]

/-- Witness for C8: a comma-separated pair of individually valid ranges. -/
theorem multiRange_rejected_witness :
    (',' ∈ "bytes=0-9,20-29".toList) ∧
    (isSingleRange "bytes=0-9,20-29".toList = false ∧
      filesRangeLogic (some "bytes=0-9,20-29".toList) 100 =
        FileRangeResponse.rangeNotSatisfiable
          "Multiple ranges not supported".toList
          ("bytes */".toList ++ intToDigits 100)) :=
  ⟨by decide, multiRange_rejected "bytes=0-9,20-29".toList 100 (by decide)⟩

/-- C2 (code bug): the claim says every range request against a
zero-byte file is unsatisfiable, but the code's suffix branch computes
`start = max(0, 0 - 1) = 0`, `end = 0 - 1 = -1` and returns
`{start: 0, end: -1}` instead of `null` for `bytes=-1` against size 0. -/
theorem parseRange_zeroFile_suffix_bug :
    parseRange "bytes=-1".toList 0 = some ⟨0, -1⟩ ∧
    parseRange "bytes=3-".toList 3 = none ∧
    parseRange "bytes=0-99".toList 0 = none ∧
    parseRange "bytes=0-".toList 0 = none := by decide

/-- C3 (code bug): the claim says a `get()` at the exact boundary
instant `t' = t + ttl` (and, with `ttl = 0`, any `get()`) is a miss, but
the code uses the strict comparison `now - timestamp > ttlMs`, so a
listing set at `t = 0` with `ttl = 300 s` is still returned at
`t' = 300000 ms`, and with `ttl = 0` a listing set at `t = 5000 ms` is
still returned by a `get()` in the same millisecond. -/
theorem shopDataCache_boundary_bug :
    (((ShopDataCache.create 300).set ⟨[], [], none⟩ 0).get 300000).2
        = some ⟨[], [], none⟩ ∧
    (((ShopDataCache.create 0).set ⟨[], [], none⟩ 5000).get 5000).2
        = some ⟨[], [], none⟩ ∧
    (((ShopDataCache.create 300).set ⟨[], [], none⟩ 0).get 299999).2
        = some ⟨[], [], none⟩ ∧
    (((ShopDataCache.create 300).set ⟨[], [], none⟩ 0).get 300001).2
        = none := by decide

/-- C4 (code bug): the claim (and the repository's documentation) says
`buildBaseAliases` output aliases are pairwise distinct for any input, but
a configured basename that itself ends in `-2` collides with the generated
suffix of a duplicated basename: `["/a/games-2", "/b/games", "/c/games"]`
produces aliases `games-2`, `games`, `games-2`. -/
theorem buildBaseAliases_duplicate_bug :
    (buildBaseAliases
        ["/a/games-2".toList, "/b/games".toList, "/c/games".toList]).map
        BaseDir.aliasName
      = ["games-2".toList, "games".toList, "games-2".toList] ∧
    ¬ ((buildBaseAliases
        ["/a/games-2".toList, "/b/games".toList, "/c/games".toList]).map
        BaseDir.aliasName).Nodup ∧
    (buildBaseAliases
        ["/a/games".toList, "/b/games".toList, "/c/games".toList]).map
        BaseDir.aliasName
      = ["games".toList, "games-2".toList, "games-3".toList] := by decide

section EncodeLemmas

theorem char_toNat_lt (c : Char) : c.toNat < 1114112 := by
  rcases c.valid with h | ⟨_, h⟩
  · exact Nat.lt_trans h (by norm_num)
  · exact h

theorem utf8Bytes_lt_256 (c : Char) : ∀ b ∈ utf8Bytes c, b < 256 := by
  have hc := char_toNat_lt c
  intro b hb
  unfold utf8Bytes at hb
  dsimp only at hb
  split_ifs at hb with h1 h2 h3 <;> simp only [List.mem_cons,
    List.not_mem_nil, or_false] at hb <;>
    rcases hb with rfl | rfl | rfl | rfl <;> omega

theorem hexDigit_lt_ne_slash : ∀ n < 16, hexDigit n ≠ '/' := by decide

theorem slash_not_mem_encodeComponentChar (c : Char) (hc : c ≠ '/') :
    '/' ∉ encodeComponentChar c := by
  unfold encodeComponentChar
  split
  · simpa using fun h => hc h.symm
  · intro hm
    rw [List.mem_flatMap] at hm
    obtain ⟨b, hbmem, hmem⟩ := hm
    have hb256 : b < 256 := utf8Bytes_lt_256 c b hbmem
    simp only [List.mem_cons, List.not_mem_nil, or_false] at hmem
    rcases hmem with h | h | h
    · exact absurd h (by decide)
    · exact hexDigit_lt_ne_slash (b / 16) (by omega) h.symm
    · exact hexDigit_lt_ne_slash (b % 16) (by omega) h.symm

theorem slash_not_mem_encodeURIComponent (s : JSString) (hs : '/' ∉ s) :
    '/' ∉ encodeURIComponent s := by
  unfold encodeURIComponent
  intro hm
  rw [List.mem_flatMap] at hm
  obtain ⟨c, hcs, hmem⟩ := hm
  exact slash_not_mem_encodeComponentChar c (fun h => hs (h ▸ hcs)) hmem

theorem encodePath_joinSep (segs : List JSString)
    (h : ∀ s ∈ segs, s ≠ [] ∧ '/' ∉ s) :
    encodePath (joinSep '/' segs) = joinSep '/' (segs.map encodeURIComponent) := by
  unfold encodePath
  by_cases hne : segs = []
  · subst hne; rfl
  · rw [splitOnChar_joinSep '/' segs hne (fun s hs => (h s hs).2),
      List.filter_eq_self.mpr (fun a ha => decide_eq_true (h a ha).1)]

end EncodeLemmas

/-- C6 (counterexample): the claim says a matched file's `url` is the
percent-encoded virtual path `{alias}/{relative path}` with no other
prefix, but `buildShopData` prefixes every url with `../files/`: a file
`My Game.nsp` under alias `games` gets url `../files/games/My%20Game.nsp`,
not `games/My%20Game.nsp`. -/
theorem shopData_url_counterexample :
    (buildShopData
        [(⟨"/data/games".toList, "games".toList⟩, ["My Game.nsp".toList])]
        (fun _ => 5678901234) none).files
      = [⟨"../files/games/My%20Game.nsp".toList, 5678901234⟩] ∧
    "../files/games/My%20Game.nsp".toList ≠ "games/My%20Game.nsp".toList := by
  decide

/-- C6 (amended): every matched file contributes the entry
`{ url: "../files/" + encodePath(alias + "/" + relpath), size }` to the
listing, where `encodePath` percent-encodes every `/`-separated segment
individually with `encodeURIComponent` and never encodes the `/`
separators themselves (joining encoded segments back with `/`; encoded
segments introduce no new `/`). -/
theorem shopData_url_amended (scans : List (BaseDir × List JSString))
    (sizeOf : JSString → Int) (msg : Option JSString)
    (b : BaseDir) (fs : List JSString) (f : JSString)
    (hb : (b, fs) ∈ scans) (hf : f ∈ fs) :
    (⟨"../files/".toList ++ encodePath (b.aliasName ++ '/' :: f),
        sizeOf (b.path ++ '/' :: f)⟩ : ShopFileEntry)
      ∈ (buildShopData scans sizeOf msg).files ∧
    (∀ segs : List JSString, (∀ s ∈ segs, s ≠ [] ∧ '/' ∉ s) →
      encodePath (joinSep '/' segs)
        = joinSep '/' (segs.map encodeURIComponent)) ∧
    (∀ s : JSString, '/' ∉ s → '/' ∉ encodeURIComponent s) := by
  refine ⟨?_, fun segs hsegs => encodePath_joinSep segs hsegs,
    fun s hs => slash_not_mem_encodeURIComponent s hs⟩
  have h1 : (b.aliasName ++ '/' :: f, b.path ++ '/' :: f)
      ∈ scans.flatMap (fun bf =>
        bf.2.map fun g => (bf.1.aliasName ++ '/' :: g, bf.1.path ++ '/' :: g)) := by
    rw [List.mem_flatMap]
    exact ⟨(b, fs), hb, List.mem_map.mpr ⟨f, hf, rfl⟩⟩
  exact List.mem_map.mpr ⟨(b.aliasName ++ '/' :: f, b.path ++ '/' :: f), h1, rfl⟩

/-- Witness for the amended C6 at a one-directory, one-file scan. -/
theorem shopData_url_amended_witness :
    (((⟨"/data/games".toList, "games".toList⟩ : BaseDir),
        ["My Game.nsp".toList])
      ∈ [((⟨"/data/games".toList, "games".toList⟩ : BaseDir),
          ["My Game.nsp".toList])] ∧
      "My Game.nsp".toList ∈ ["My Game.nsp".toList]) ∧
    (⟨"../files/".toList
        ++ encodePath ("games".toList ++ '/' :: "My Game.nsp".toList),
        (5678901234 : Int)⟩ : ShopFileEntry)
      ∈ (buildShopData
          [(⟨"/data/games".toList, "games".toList⟩, ["My Game.nsp".toList])]
          (fun _ => 5678901234) none).files :=
  ⟨⟨by decide, by decide⟩,
    (shopData_url_amended
      [(⟨"/data/games".toList, "games".toList⟩, ["My Game.nsp".toList])]
      (fun _ => 5678901234) none ⟨"/data/games".toList, "games".toList⟩
      ["My Game.nsp".toList] "My Game.nsp".toList
      (by decide) (by decide)).1⟩

-- concrete evaluations of the embedded functions, checked by the kernel
example : parseRange "bytes=0-99".toList 1000 = some ⟨0, 99⟩ := by decide
example : parseRange "bytes=500-".toList 1000 = some ⟨500, 999⟩ := by decide
example : parseRange "bytes=-500".toList 1000 = some ⟨500, 999⟩ := by decide
example : parseRange "bytes=900-2000".toList 1000 = some ⟨900, 999⟩ := by decide
example : parseRange "bytes=-0".toList 1000 = none := by decide
example : parseRange "bytes=-".toList 1000 = none := by decide
example : parseRange "bytes=--100".toList 1000 = none := by decide
example : parseRange "invalid".toList 1000 = none := by decide
example : parseRange "bytes=0-99".toList 0 = none := by decide
example : parseRange "bytes=-1".toList 0 = some ⟨0, -1⟩ := by decide
example : getContentRangeHeader 0 99 1000 = "bytes 0-99/1000".toList := by decide
example : natToDigits 120 = ['1', '2', '0'] := by decide
example : jsTrim "  a ".toList = ['a'] := by decide
